import Mathlib

/-!
Verification of the B2C label generator's core layout code (`src/app.py`):
the font-fit solver `find_max_font_size_for_multiline`, the label composer
`draw_label`, and the batch driver `create_pdf`.

Font metrics (`pdfmetrics.stringWidth`) are an external capability; they are
modelled as an explicit function argument `metrics : String → String → ℕ → ℚ`
taking the line, the font name, and the font size, and returning the rendered
width.  Device-unit quantities (widths, heights, coordinates) are rationals;
font sizes are naturals; the size override is an integer.
-/

namespace B2CLabelGen

/-- `FONT_ADJUSTMENT = 2  # for printer safety` from `app.py`. -/
def FONT_ADJUSTMENT : ℤ := 2

/-- One `c.drawString(x, y, line)` call issued by the composer. -/
structure DrawCall where
  x : ℚ
  y : ℚ
  text : String
deriving DecidableEq

/-- One emitted page: the sanitized source text, the font size set by
`c.setFont`, and the draw calls issued before `c.showPage()`. -/
structure Page where
  text : String
  fontSize : ℕ
  calls : List DrawCall
deriving DecidableEq

/-- Worker for Python `str.split()` (no separator argument): scan the
characters, accumulating the current word reversed in `cur`, emitting a word
at each whitespace boundary, discarding empty pieces. -/
def pyWordsGo : List Char → List Char → List String
  | cur, [] => if cur.isEmpty then [] else [String.mk cur.reverse]
  | cur, c :: cs =>
    if c.isWhitespace then
      if cur.isEmpty then pyWordsGo [] cs
      else String.mk cur.reverse :: pyWordsGo [] cs
    else pyWordsGo (c :: cur) cs

/-- Python `text.split()`: whitespace-separated words, no empty strings. -/
def pySplit (s : String) : List String :=
  pyWordsGo [] s.data

/-- Python `str.strip()`: drop leading and trailing whitespace. -/
def pyStrip (s : String) : String :=
  String.mk (((s.data.dropWhile Char.isWhitespace).reverse.dropWhile
    Char.isWhitespace).reverse)

/-- Python `str.lower()` (ASCII case folding suffices for the inputs used). -/
def pyLower (s : String) : String :=
  String.mk (s.data.map Char.toLower)

/-- `total_height = len(lines) * font_size + (len(lines) - 1) * 2` — an
integer in the source; `lines` is non-empty wherever this is evaluated, so
natural subtraction agrees with Python's. -/
def totalHeight (lines : List String) (font_size : ℕ) : ℕ :=
  lines.length * font_size + (lines.length - 1) * 2

/-- `max_line_width = max(pdfmetrics.stringWidth(line, font_name, font_size)
for line in lines)` — Python `max` over a non-empty sequence, i.e. a fold of
binary `max` starting from the first element. -/
def maxLineWidth (metrics : String → String → ℕ → ℚ) (font_name : String)
    (lines : List String) (font_size : ℕ) : ℚ :=
  match lines with
  | [] => 0
  | l :: ls =>
    ls.foldl (fun acc line => max acc (metrics line font_name font_size))
      (metrics l font_name font_size)

/-- Both fit constraints of the solver hold at `font_size`: the widest line
fits in `max_width - 4` and the stacked block fits in `max_height - 4`. -/
def fits (metrics : String → String → ℕ → ℚ) (font_name : String)
    (lines : List String) (max_width max_height : ℚ) (font_size : ℕ) : Prop :=
  maxLineWidth metrics font_name lines font_size ≤ max_width - 4 ∧
    (totalHeight lines font_size : ℚ) ≤ max_height - 4

instance (metrics : String → String → ℕ → ℚ) (font_name : String)
    (lines : List String) (max_width max_height : ℚ) (font_size : ℕ) :
    Decidable (fits metrics font_name lines max_width max_height font_size) := by
  unfold fits
  infer_instance

/-- A font size at least as large as the number cast from the block height,
for a non-empty line list.  Needed for termination of the search loop. -/
theorem le_totalHeight (l : String) (ls : List String) (font_size : ℕ) :
    font_size ≤ totalHeight (l :: ls) font_size := by
  have h1 : font_size ≤ (ls.length + 1) * font_size :=
    Nat.le_mul_of_pos_left font_size (Nat.succ_pos _)
  calc font_size ≤ (ls.length + 1) * font_size := h1
    _ ≤ (l :: ls).length * font_size + ((l :: ls).length - 1) * 2 := by
        simp [List.length_cons]
    _ = totalHeight (l :: ls) font_size := rfl

/-- The `while True` loop of `find_max_font_size_for_multiline`, started at a
candidate `font_size`, for the non-empty line list `l :: ls`.  Terminates
because the block height grows past `max_height - 4`. -/
def fitLoop (metrics : String → String → ℕ → ℚ) (font_name : String)
    (l : String) (ls : List String) (max_width max_height : ℚ)
    (font_size : ℕ) : ℕ :=
  if h : maxLineWidth metrics font_name (l :: ls) font_size > max_width - 4 ∨
      (totalHeight (l :: ls) font_size : ℚ) > max_height - 4 then
    max (font_size - 1) 1
  else
    fitLoop metrics font_name l ls max_width max_height (font_size + 1)
termination_by Nat.ceil max_height + 2 - font_size
decreasing_by
  push_neg at h
  have hs : (font_size : ℚ) ≤ (totalHeight (l :: ls) font_size : ℚ) := by
    exact_mod_cast le_totalHeight l ls font_size
  have hq : (font_size : ℚ) ≤ (Nat.ceil max_height : ℚ) := by
    have hle := Nat.le_ceil max_height
    linarith [h.2]
  have hn : font_size ≤ Nat.ceil max_height := by exact_mod_cast hq
  omega

/-- `find_max_font_size_for_multiline(lines, max_width, max_height,
font_name)`: on an empty `lines`, Python's `max()` raises `ValueError`;
otherwise run the linear search from size 1. -/
def find_max_font_size_for_multiline (metrics : String → String → ℕ → ℚ)
    (font_name : String) (lines : List String) (max_width max_height : ℚ) :
    Except String ℕ :=
  match lines with
  | [] => .error "max() arg is an empty sequence"
  | l :: ls => .ok (fitLoop metrics font_name l ls max_width max_height 1)

/-- Fuel-indexed variant of the search loop: `none` means the iteration
budget ran out before the exit condition was reached.  Used to state
termination of the source's unbounded `while True` loop. -/
def fitLoopFuel (metrics : String → String → ℕ → ℚ) (font_name : String)
    (l : String) (ls : List String) (max_width max_height : ℚ) :
    ℕ → ℕ → Option ℕ
  | 0, _ => none
  | fuel + 1, font_size =>
    if maxLineWidth metrics font_name (l :: ls) font_size > max_width - 4 ∨
        (totalHeight (l :: ls) font_size : ℚ) > max_height - 4 then
      some (max (font_size - 1) 1)
    else
      fitLoopFuel metrics font_name l ls max_width max_height fuel
        (font_size + 1)

/-- `font_size = max(raw_font_size - FONT_ADJUSTMENT + font_override, 1)` —
integer arithmetic clamped below at 1, so the result is a positive natural. -/
def finalSize (raw_font_size : ℕ) (font_override : ℤ) : ℕ :=
  (max ((raw_font_size : ℤ) - FONT_ADJUSTMENT + font_override) 1).toNat

/-- The draw calls issued by `draw_label`'s `for i, line in enumerate(lines)`
loop: line `i` centered horizontally, at
`y = start_y + (len(lines) - i - 1) * (font_size + 2)`. -/
def layoutCalls (metrics : String → String → ℕ → ℚ) (font_name : String)
    (lines : List String) (width height : ℚ) (font_size : ℕ) :
    List DrawCall :=
  lines.enum.map (fun p =>
    { x := (width - metrics p.2 font_name font_size) / 2,
      y := (height - (totalHeight lines font_size : ℚ)) / 2 +
        ((lines.length - p.1 - 1 : ℕ) : ℚ) * ((font_size : ℚ) + 2),
      text := p.2 })

/-- `draw_label(c, text, font_name, width, height, font_override)`: split the
text into words, solve for the raw size, apply safety margin and override,
and issue the draw calls.  Propagates the solver's failure on an empty word
list (Python would crash with `ValueError`). -/
def draw_label (metrics : String → String → ℕ → ℚ) (text font_name : String)
    (width height : ℚ) (font_override : ℤ) :
    Except String (ℕ × List DrawCall) :=
  let lines := pySplit text
  (find_max_font_size_for_multiline metrics font_name lines width
      height).map (fun raw_font_size =>
    let font_size := finalSize raw_font_size font_override
    (font_size, layoutCalls metrics font_name lines width height font_size))

/-- `create_pdf(data_list, font_name, width, height, font_override)`: one
page per value whose stripped form is non-blank and not (case-insensitively)
`"nan"`, in input order; a `draw_label` failure aborts the batch. -/
def create_pdf (metrics : String → String → ℕ → ℚ)
    (data_list : List String) (font_name : String) (width height : ℚ)
    (font_override : ℤ) : Except String (List Page) :=
  match data_list with
  | [] => .ok []
  | value :: rest =>
    let text := pyStrip value
    if text = "" ∨ pyLower text = "nan" then
      create_pdf metrics rest font_name width height font_override
    else
      match draw_label metrics text font_name width height font_override with
      | .error e => .error e
      | .ok (fs, calls) =>
        match create_pdf metrics rest font_name width height font_override with
        | .error e => .error e
        | .ok pages => .ok ({ text := text, fontSize := fs, calls := calls } :: pages)

/-- Concrete metrics used in concrete instantiations: every string has
rendered width zero at every size (trivially monotone and non-negative). -/
def zeroMetrics : String → String → ℕ → ℚ := fun _ _ _ => 0

/-- Concrete metrics used in concrete instantiations: a string of `n`
characters renders `n * size` units wide (a monospace-like font). -/
def lenMetrics : String → String → ℕ → ℚ := fun line _ s => (line.length : ℚ) * s

/-! ## Solver lemmas -/

/-- The loop's exit condition is the negation of `fits`. -/
theorem not_overflow_iff (metrics : String → String → ℕ → ℚ)
    (font_name : String) (lines : List String) (mw mh : ℚ) (s : ℕ) :
    ¬(maxLineWidth metrics font_name lines s > mw - 4 ∨
        (totalHeight lines s : ℚ) > mh - 4) ↔
      fits metrics font_name lines mw mh s := by
  unfold fits
  constructor
  · intro h
    push_neg at h
    exact h
  · intro h
    push_neg
    exact h

/-- Above `⌈max_height⌉₊` the height constraint is violated, for a non-empty
line list: the block height is at least the font size. -/
theorem overflow_of_ceil_lt (l : String) (ls : List String) (mh : ℚ) (s : ℕ)
    (hs : Nat.ceil mh + 1 ≤ s) :
    (totalHeight (l :: ls) s : ℚ) > mh - 4 := by
  have h1 : (s : ℚ) ≤ (totalHeight (l :: ls) s : ℚ) := by
    exact_mod_cast le_totalHeight l ls s
  have h2 : mh ≤ (Nat.ceil mh : ℚ) := Nat.le_ceil mh
  have h3 : (Nat.ceil mh : ℚ) + 1 ≤ (s : ℚ) := by exact_mod_cast hs
  linarith

/-- Full specification of the search loop, by strong induction on the
remaining budget `k`: the result is at least 1, and if the starting
candidate `s ≥ 1` fits, the result `r` fits, `r + 1` does not, and `r ≥ s`. -/
theorem fitLoop_spec (metrics : String → String → ℕ → ℚ)
    (font_name l : String) (ls : List String) (mw mh : ℚ) :
    ∀ k s, Nat.ceil mh + 2 - s ≤ k →
      1 ≤ fitLoop metrics font_name l ls mw mh s ∧
      (1 ≤ s → fits metrics font_name (l :: ls) mw mh s →
        fits metrics font_name (l :: ls) mw mh
          (fitLoop metrics font_name l ls mw mh s) ∧
        ¬ fits metrics font_name (l :: ls) mw mh
          (fitLoop metrics font_name l ls mw mh s + 1) ∧
        s ≤ fitLoop metrics font_name l ls mw mh s) := by
  intro k
  induction k with
  | zero =>
    intro s hk
    have hov : (totalHeight (l :: ls) s : ℚ) > mh - 4 :=
      overflow_of_ceil_lt l ls mh s (by omega)
    rw [fitLoop, dif_pos (Or.inr hov)]
    refine ⟨le_max_right _ _, ?_⟩
    intro _ hfit
    exact absurd hfit.2 (not_le.mpr hov)
  | succ k ih =>
    intro s hk
    by_cases hc : maxLineWidth metrics font_name (l :: ls) s > mw - 4 ∨
        (totalHeight (l :: ls) s : ℚ) > mh - 4
    · rw [fitLoop, dif_pos hc]
      refine ⟨le_max_right _ _, ?_⟩
      intro _ hfit
      exact absurd hc ((not_overflow_iff metrics font_name (l :: ls) mw mh s).mpr hfit)
    · rw [fitLoop, dif_neg hc]
      obtain ⟨hge1, hrec⟩ := ih (s + 1) (by omega)
      refine ⟨hge1, ?_⟩
      intro h1 hfit
      by_cases hc1 : fits metrics font_name (l :: ls) mw mh (s + 1)
      · obtain ⟨hf, hnf, hle⟩ := hrec (by omega) hc1
        exact ⟨hf, hnf, by omega⟩
      · have hov1 : maxLineWidth metrics font_name (l :: ls) (s + 1) > mw - 4 ∨
            (totalHeight (l :: ls) (s + 1) : ℚ) > mh - 4 := by
          by_contra hno
          exact hc1 ((not_overflow_iff metrics font_name (l :: ls) mw mh (s + 1)).mp hno)
        rw [fitLoop, dif_pos hov1]
        have heq : max (s + 1 - 1) 1 = s := by
          simp only [Nat.add_sub_cancel]
          exact Nat.max_eq_left h1
        rw [heq]
        exact ⟨hfit, hc1, le_refl s⟩

/-- Block height is strictly monotone in the font size for a non-empty line
list. -/
theorem totalHeight_strictMono (l : String) (ls : List String) {s1 s2 : ℕ}
    (h : s1 < s2) : totalHeight (l :: ls) s1 < totalHeight (l :: ls) s2 := by
  unfold totalHeight
  have hm : (l :: ls).length * s1 < (l :: ls).length * s2 :=
    Nat.mul_lt_mul_of_pos_left h (Nat.succ_pos ls.length)
  omega

/-- Block height is monotone in the font size. -/
theorem totalHeight_mono (lines : List String) {s1 s2 : ℕ} (h : s1 ≤ s2) :
    totalHeight lines s1 ≤ totalHeight lines s2 := by
  unfold totalHeight
  have hm : lines.length * s1 ≤ lines.length * s2 := Nat.mul_le_mul_left _ h
  omega

/-- A fold of binary `max` is monotone in the start value and in the folded
function. -/
theorem foldl_max_mono {f g : String → ℚ} (h : ∀ x, f x ≤ g x) :
    ∀ (ls : List String) (a b : ℚ), a ≤ b →
      ls.foldl (fun acc line => max acc (f line)) a ≤
        ls.foldl (fun acc line => max acc (g line)) b := by
  intro ls
  induction ls with
  | nil => intro a b hab; simpa using hab
  | cons x xs ih =>
    intro a b hab
    exact ih _ _ (max_le_max hab (h x))

/-- If the metrics are monotone in the size, so is the maximum line width. -/
theorem maxLineWidth_mono (metrics : String → String → ℕ → ℚ)
    (font_name l : String) (ls : List String) {s1 s2 : ℕ}
    (hmono : ∀ line s t, s ≤ t →
      metrics line font_name s ≤ metrics line font_name t)
    (h : s1 ≤ s2) :
    maxLineWidth metrics font_name (l :: ls) s1 ≤
      maxLineWidth metrics font_name (l :: ls) s2 := by
  unfold maxLineWidth
  exact foldl_max_mono (fun x => hmono x s1 s2 h) ls _ _ (hmono l s1 s2 h)

/-- For monotone metrics, `fits` is downward closed in the font size. -/
theorem fits_mono_down (metrics : String → String → ℕ → ℚ)
    (font_name l : String) (ls : List String) (mw mh : ℚ) {s t : ℕ}
    (hmono : ∀ line s t, s ≤ t →
      metrics line font_name s ≤ metrics line font_name t)
    (hst : s ≤ t) (hf : fits metrics font_name (l :: ls) mw mh t) :
    fits metrics font_name (l :: ls) mw mh s := by
  refine ⟨le_trans (maxLineWidth_mono metrics font_name l ls hmono hst) hf.1, ?_⟩
  refine le_trans ?_ hf.2
  exact_mod_cast totalHeight_mono (l :: ls) hst

/-! ## Claim C1 -/

/-- C1: for every non-empty list of lines, every font name, and every
metrics function monotone in the size, if size 1 satisfies both fit
constraints then `find_max_font_size_for_multiline` returns the largest
positive integer size for which both constraints hold. -/
theorem find_max_font_size_returns_largest_fitting
    (metrics : String → String → ℕ → ℚ) (font_name l : String)
    (ls : List String) (mw mh : ℚ)
    (hmono : ∀ line s t, s ≤ t →
      metrics line font_name s ≤ metrics line font_name t)
    (h1 : fits metrics font_name (l :: ls) mw mh 1) :
    ∃ r, find_max_font_size_for_multiline metrics font_name (l :: ls) mw mh =
        .ok r ∧
      1 ≤ r ∧ fits metrics font_name (l :: ls) mw mh r ∧
      ∀ t, fits metrics font_name (l :: ls) mw mh t → t ≤ r := by
  obtain ⟨hge, hspec⟩ :=
    fitLoop_spec metrics font_name l ls mw mh (Nat.ceil mh + 2) 1 (by omega)
  obtain ⟨hf, hnf, -⟩ := hspec (le_refl 1) h1
  refine ⟨fitLoop metrics font_name l ls mw mh 1, rfl, hge, hf, ?_⟩
  intro t ht
  by_contra hlt
  push_neg at hlt
  exact hnf (fits_mono_down metrics font_name l ls mw mh hmono (by omega) ht)

/-- Witness for C1: with monospace-like metrics, lines `["AB"]` and a 20×20
canvas, the hypotheses hold and the conclusion is delivered at that input
(the largest fitting size there is 8: width `2s ≤ 16`). -/
theorem find_max_font_size_returns_largest_fitting_witness :
    (∀ line s t, s ≤ t →
      lenMetrics line "Helvetica" s ≤ lenMetrics line "Helvetica" t) ∧
    fits lenMetrics "Helvetica" ["AB"] 20 20 1 ∧
    (∃ r, find_max_font_size_for_multiline lenMetrics "Helvetica" ["AB"] 20 20 =
        .ok r ∧
      1 ≤ r ∧ fits lenMetrics "Helvetica" ["AB"] 20 20 r ∧
      ∀ t, fits lenMetrics "Helvetica" ["AB"] 20 20 t → t ≤ r) := by
  have hmono : ∀ line s t, s ≤ t →
      lenMetrics line "Helvetica" s ≤ lenMetrics line "Helvetica" t := by
    intro line s t hst
    unfold lenMetrics
    have : (s : ℚ) ≤ (t : ℚ) := by exact_mod_cast hst
    have hnn : (0 : ℚ) ≤ (line.length : ℚ) := by positivity
    exact mul_le_mul_of_nonneg_left this hnn
  have h1 : fits lenMetrics "Helvetica" ["AB"] 20 20 1 := by
    refine ⟨?_, ?_⟩
    · norm_num [maxLineWidth, lenMetrics]
      decide
    · norm_num [totalHeight]
  exact ⟨hmono, h1,
    find_max_font_size_returns_largest_fitting lenMetrics "Helvetica" "AB" []
      20 20 hmono h1⟩

/-! ## Claim C7 -/

/-- C7: for every non-empty list of lines and all canvas dimensions
(including ones where even size 1 overflows),
`find_max_font_size_for_multiline` returns a size of at least 1. -/
theorem find_max_font_size_at_least_one (metrics : String → String → ℕ → ℚ)
    (font_name l : String) (ls : List String) (mw mh : ℚ) :
    ∃ r, find_max_font_size_for_multiline metrics font_name (l :: ls) mw mh =
        .ok r ∧ 1 ≤ r :=
  ⟨fitLoop metrics font_name l ls mw mh 1, rfl,
    (fitLoop_spec metrics font_name l ls mw mh (Nat.ceil mh + 2) 1 (by omega)).1⟩

/-- When the fuel-indexed loop reaches the exit condition, it computes the
same answer as the loop itself. -/
theorem fitLoopFuel_agrees (metrics : String → String → ℕ → ℚ)
    (font_name l : String) (ls : List String) (mw mh : ℚ) :
    ∀ fuel s r, fitLoopFuel metrics font_name l ls mw mh fuel s = some r →
      fitLoop metrics font_name l ls mw mh s = r := by
  intro fuel
  induction fuel with
  | zero => intro s r h; simp [fitLoopFuel] at h
  | succ fuel ih =>
    intro s r h
    simp only [fitLoopFuel] at h
    by_cases hc : maxLineWidth metrics font_name (l :: ls) s > mw - 4 ∨
        (totalHeight (l :: ls) s : ℚ) > mh - 4
    · rw [if_pos hc] at h
      rw [fitLoop, dif_pos hc]
      exact Option.some.inj h
    · rw [if_neg hc] at h
      rw [fitLoop, dif_neg hc]
      exact ih _ _ h

/-- With a fuel budget of at least `⌈max_height⌉₊ + 2 - s` iterations (and at
least one), the fuel-indexed loop reaches the exit condition. -/
theorem fitLoopFuel_terminates (metrics : String → String → ℕ → ℚ)
    (font_name l : String) (ls : List String) (mw mh : ℚ) :
    ∀ fuel s, 1 ≤ fuel → Nat.ceil mh + 2 ≤ fuel + s →
      ∃ r, fitLoopFuel metrics font_name l ls mw mh fuel s = some r := by
  intro fuel
  induction fuel with
  | zero => intro s h0 _; omega
  | succ fuel ih =>
    intro s _ hk
    by_cases hc : maxLineWidth metrics font_name (l :: ls) s > mw - 4 ∨
        (totalHeight (l :: ls) s : ℚ) > mh - 4
    · exact ⟨max (s - 1) 1, by simp only [fitLoopFuel]; rw [if_pos hc]⟩
    · have hno : ¬((totalHeight (l :: ls) s : ℚ) > mh - 4) := fun hh => hc (Or.inr hh)
      have hs_le : s ≤ Nat.ceil mh := by
        by_contra hgt
        exact hno (overflow_of_ceil_lt l ls mh s (by omega))
      obtain ⟨r, hr⟩ := ih (s + 1) (by omega) (by omega)
      exact ⟨r, by simp only [fitLoopFuel]; rw [if_neg hc]; exact hr⟩

/-! ## Claim C8 -/

/-- C8: for every non-empty list of lines, every finite `max_height`, and
every metrics function with non-negative widths, the smallest-to-largest
search terminates: the block height strictly increases with the size, and
the iteration reaches its exit condition within some finite fuel budget,
producing exactly the solver's answer. -/
theorem find_max_font_size_search_terminates
    (metrics : String → String → ℕ → ℚ) (font_name l : String)
    (ls : List String) (mw mh : ℚ)
    (hnn : ∀ line s, 0 ≤ metrics line font_name s) :
    (∀ s1 s2, s1 < s2 → totalHeight (l :: ls) s1 < totalHeight (l :: ls) s2) ∧
    ∃ fuel r, fitLoopFuel metrics font_name l ls mw mh fuel 1 = some r ∧
      find_max_font_size_for_multiline metrics font_name (l :: ls) mw mh =
        .ok r := by
  refine ⟨fun s1 s2 h => totalHeight_strictMono l ls h, ?_⟩
  obtain ⟨r, hr⟩ := fitLoopFuel_terminates metrics font_name l ls mw mh
    (Nat.ceil mh + 2) 1 (by omega) (by omega)
  refine ⟨Nat.ceil mh + 2, r, hr, ?_⟩
  have hagree := fitLoopFuel_agrees metrics font_name l ls mw mh
    (Nat.ceil mh + 2) 1 r hr
  simp only [find_max_font_size_for_multiline, hagree]

/-- Witness for C8: zero-width metrics, a single line `"A"`, a 50×30
canvas. -/
theorem find_max_font_size_search_terminates_witness :
    (∀ line s, 0 ≤ zeroMetrics line "Courier" s) ∧
    ((∀ s1 s2, s1 < s2 → totalHeight ["A"] s1 < totalHeight ["A"] s2) ∧
    ∃ fuel r, fitLoopFuel zeroMetrics "Courier" "A" [] 50 30 fuel 1 = some r ∧
      find_max_font_size_for_multiline zeroMetrics "Courier" ["A"] 50 30 =
        .ok r) :=
  ⟨fun _ _ => le_refl 0,
    find_max_font_size_search_terminates zeroMetrics "Courier" "A" [] 50 30
      (fun _ _ => le_refl 0)⟩

/-! ## Claim C9 -/

/-- C9: for all font sizes `s1 < s2` and any fixed non-empty line set, with
metrics non-decreasing in the size, the maximum rendered line width at `s2`
is at least that at `s1`, and the block height at `s2` is strictly greater
than at `s1`. -/
theorem solver_measurements_monotone (metrics : String → String → ℕ → ℚ)
    (font_name l : String) (ls : List String) (s1 s2 : ℕ)
    (hmono : ∀ line s t, s ≤ t →
      metrics line font_name s ≤ metrics line font_name t)
    (h : s1 < s2) :
    maxLineWidth metrics font_name (l :: ls) s1 ≤
      maxLineWidth metrics font_name (l :: ls) s2 ∧
    totalHeight (l :: ls) s1 < totalHeight (l :: ls) s2 :=
  ⟨maxLineWidth_mono metrics font_name l ls hmono (le_of_lt h),
    totalHeight_strictMono l ls h⟩

/-- Witness for C9: monospace-like metrics, lines `["FOO", "BAR"]`, sizes 3
and 7. -/
theorem solver_measurements_monotone_witness :
    (∀ line s t, s ≤ t →
      lenMetrics line "Times-Roman" s ≤ lenMetrics line "Times-Roman" t) ∧
    (3 : ℕ) < 7 ∧
    (maxLineWidth lenMetrics "Times-Roman" ["FOO", "BAR"] 3 ≤
      maxLineWidth lenMetrics "Times-Roman" ["FOO", "BAR"] 7 ∧
    totalHeight ["FOO", "BAR"] 3 < totalHeight ["FOO", "BAR"] 7) := by
  have hmono : ∀ line s t, s ≤ t →
      lenMetrics line "Times-Roman" s ≤ lenMetrics line "Times-Roman" t := by
    intro line s t hst
    unfold lenMetrics
    have hc : (s : ℚ) ≤ (t : ℚ) := by exact_mod_cast hst
    have hnn : (0 : ℚ) ≤ (line.length : ℚ) := by positivity
    exact mul_le_mul_of_nonneg_left hc hnn
  exact ⟨hmono, by omega,
    solver_measurements_monotone lenMetrics "Times-Roman" "FOO" ["BAR"] 3 7
      hmono (by omega)⟩

/-! ## Composer lemmas -/

/-- The clamped final size is positive. -/
theorem finalSize_pos (raw : ℕ) (o : ℤ) : 1 ≤ finalSize raw o := by
  unfold finalSize
  have h : (1 : ℤ) ≤ max ((raw : ℤ) - FONT_ADJUSTMENT + o) 1 := le_max_right _ _
  have h2 := Int.toNat_le_toNat h
  simp only [Int.toNat_one] at h2
  exact h2

/-- The clamped final size, cast back to the integers, is exactly
`max(raw - FONT_ADJUSTMENT + override, 1)`. -/
theorem finalSize_cast (raw : ℕ) (o : ℤ) :
    (finalSize raw o : ℤ) = max ((raw : ℤ) - FONT_ADJUSTMENT + o) 1 := by
  unfold finalSize
  exact Int.toNat_of_nonneg
    (le_trans (by norm_num) (le_max_right ((raw : ℤ) - FONT_ADJUSTMENT + o) 1))

/-- On a text splitting into the non-empty word list `l :: ls`, `draw_label`
succeeds and produces the clamped final size together with the layout
calls at that size. -/
theorem draw_label_eq (metrics : String → String → ℕ → ℚ)
    (text font_name : String) (w ht : ℚ) (o : ℤ) (l : String)
    (ls : List String) (hsplit : pySplit text = l :: ls) :
    draw_label metrics text font_name w ht o =
      .ok (finalSize (fitLoop metrics font_name l ls w ht 1) o,
        layoutCalls metrics font_name (l :: ls) w ht
          (finalSize (fitLoop metrics font_name l ls w ht 1) o)) := by
  unfold draw_label
  rw [hsplit]
  rfl

/-- The layout produces one draw call per line. -/
theorem layoutCalls_length (metrics : String → String → ℕ → ℚ)
    (font_name : String) (lines : List String) (w ht : ℚ) (fs : ℕ) :
    (layoutCalls metrics font_name lines w ht fs).length = lines.length := by
  simp [layoutCalls]

/-- Element-wise description of the layout: call `i` draws line `i`,
horizontally centered, at
`y = start_y + (numLines - i - 1) * (font_size + 2)`. -/
theorem layoutCalls_get (metrics : String → String → ℕ → ℚ)
    (font_name : String) (lines : List String) (w ht : ℚ) (fs : ℕ)
    (i : ℕ) (hi : i < lines.length)
    (hc : i < (layoutCalls metrics font_name lines w ht fs).length) :
    (layoutCalls metrics font_name lines w ht fs).get ⟨i, hc⟩ =
      { x := (w - metrics (lines.get ⟨i, hi⟩) font_name fs) / 2,
        y := (ht - (totalHeight lines fs : ℚ)) / 2 +
          ((lines.length - i - 1 : ℕ) : ℚ) * ((fs : ℚ) + 2),
        text := lines.get ⟨i, hi⟩ } := by
  simp [layoutCalls, List.get_eq_getElem, List.getElem_map, List.getElem_enum]

/-- The texts of the layout calls are exactly the lines, in order. -/
theorem layoutCalls_map_text (metrics : String → String → ℕ → ℚ)
    (font_name : String) (lines : List String) (w ht : ℚ) (fs : ℕ) :
    (layoutCalls metrics font_name lines w ht fs).map DrawCall.text = lines := by
  simp only [layoutCalls, List.map_map]
  have : (DrawCall.text ∘ fun p : ℕ × String =>
      ({ x := (w - metrics p.2 font_name fs) / 2,
         y := (ht - (totalHeight lines fs : ℚ)) / 2 +
           ((lines.length - p.1 - 1 : ℕ) : ℚ) * ((fs : ℚ) + 2),
         text := p.2 } : DrawCall)) = Prod.snd := rfl
  rw [this, List.enum_map_snd]

/-! ## Claim C2 -/

/-- C2: for every request whose text splits into at least one word, the
composer computes the final font size from the solver's raw result as
`max(raw - FONT_ADJUSTMENT + override, 1)`, which is at least 1 for every
raw size and every override. -/
theorem draw_label_final_size_clamped (metrics : String → String → ℕ → ℚ)
    (text font_name : String) (w ht : ℚ) (o : ℤ) (l : String)
    (ls : List String) (hsplit : pySplit text = l :: ls) :
    ∃ raw fs calls,
      find_max_font_size_for_multiline metrics font_name (pySplit text) w ht =
        .ok raw ∧
      draw_label metrics text font_name w ht o = .ok (fs, calls) ∧
      (fs : ℤ) = max ((raw : ℤ) - FONT_ADJUSTMENT + o) 1 ∧ 1 ≤ fs := by
  refine ⟨fitLoop metrics font_name l ls w ht 1,
    finalSize (fitLoop metrics font_name l ls w ht 1) o, _, ?_,
    draw_label_eq metrics text font_name w ht o l ls hsplit,
    finalSize_cast _ _, finalSize_pos _ _⟩
  rw [hsplit]
  rfl

/-- Witness for C2: text `"A"` with `sizeOverride = -5` on a tiny 5×5
canvas; the final size still clamps to at least 1. -/
theorem draw_label_final_size_clamped_witness :
    pySplit "A" = ["A"] ∧
    (∃ raw fs calls,
      find_max_font_size_for_multiline zeroMetrics "Helvetica" (pySplit "A")
        5 5 = .ok raw ∧
      draw_label zeroMetrics "A" "Helvetica" 5 5 (-5) = .ok (fs, calls) ∧
      (fs : ℤ) = max ((raw : ℤ) - FONT_ADJUSTMENT + (-5)) 1 ∧ 1 ≤ fs) :=
  ⟨by decide,
    draw_label_final_size_clamped zeroMetrics "A" "Helvetica" 5 5 (-5) "A" []
      (by decide)⟩

/-! ## Claim C3 -/

/-- C3: the composer splits the entire text into whitespace-separated words,
one line per word; each line is centered horizontally independently, and
lines earlier in the list are drawn at strictly higher y coordinates. -/
theorem draw_label_word_per_line (metrics : String → String → ℕ → ℚ)
    (text font_name : String) (w ht : ℚ) (o : ℤ)
    (hne : pySplit text ≠ []) :
    ∃ fs calls, draw_label metrics text font_name w ht o = .ok (fs, calls) ∧
      calls.map DrawCall.text = pySplit text ∧
      (∀ c ∈ calls, c.x = (w - metrics c.text font_name fs) / 2) ∧
      ∀ i j (hi : i < calls.length) (hj : j < calls.length), i < j →
        (calls.get ⟨j, hj⟩).y < (calls.get ⟨i, hi⟩).y := by
  obtain ⟨l, ls, hsplit⟩ := List.exists_cons_of_ne_nil hne
  refine ⟨_, _, draw_label_eq metrics text font_name w ht o l ls hsplit,
    ?_, ?_, ?_⟩
  · rw [layoutCalls_map_text, hsplit]
  · intro c hc
    simp only [layoutCalls, List.mem_map] at hc
    obtain ⟨p, -, rfl⟩ := hc
    rfl
  · intro i j hi hj hij
    have hlen := layoutCalls_length metrics font_name (l :: ls) w ht
      (finalSize (fitLoop metrics font_name l ls w ht 1) o)
    have hi2 : i < (l :: ls).length := by omega
    have hj2 : j < (l :: ls).length := by omega
    rw [layoutCalls_get metrics font_name (l :: ls) w ht _ i hi2 hi,
      layoutCalls_get metrics font_name (l :: ls) w ht _ j hj2 hj]
    have hlt : ((l :: ls).length - j - 1 : ℕ) < ((l :: ls).length - i - 1 : ℕ) := by
      omega
    have hcast : (((l :: ls).length - j - 1 : ℕ) : ℚ) <
        (((l :: ls).length - i - 1 : ℕ) : ℚ) := by exact_mod_cast hlt
    have hK : (0 : ℚ) <
        ((finalSize (fitLoop metrics font_name l ls w ht 1) o : ℚ) + 2) := by
      positivity
    have := mul_lt_mul_of_pos_right hcast hK
    simp only [DrawCall.mk.injEq]
    linarith

/-- Witness for C3: `"FOO BAR"` splits into exactly the two lines `"FOO"`
and `"BAR"`, and the theorem applies at that input. -/
theorem draw_label_word_per_line_witness :
    pySplit "FOO BAR" = ["FOO", "BAR"] ∧
    pySplit "FOO BAR" ≠ [] ∧
    (∃ fs calls,
      draw_label lenMetrics "FOO BAR" "Helvetica" 200 100 0 = .ok (fs, calls) ∧
      calls.map DrawCall.text = pySplit "FOO BAR" ∧
      (∀ c ∈ calls, c.x = (200 - lenMetrics c.text "Helvetica" fs) / 2) ∧
      ∀ i j (hi : i < calls.length) (hj : j < calls.length), i < j →
        (calls.get ⟨j, hj⟩).y < (calls.get ⟨i, hi⟩).y) :=
  ⟨by decide, by decide,
    draw_label_word_per_line lenMetrics "FOO BAR" "Helvetica" 200 100 0
      (by decide)⟩

/-! ## Claim C4 -/

/-- C4: with a non-empty line set of `n` lines, the composer recomputes the
block height with the final size, centers the block vertically with the
unclamped `start_y = (height - blockHeight) / 2`, and draws line `i`
(0-based, top line first) at `x = (width - renderedWidth(line, fs)) / 2`
and `y = start_y + (n - i - 1) * (fs + 2)`. -/
theorem draw_label_layout_formulas (metrics : String → String → ℕ → ℚ)
    (text font_name : String) (w ht : ℚ) (o : ℤ) (l : String)
    (ls : List String) (hsplit : pySplit text = l :: ls) :
    ∃ fs calls, draw_label metrics text font_name w ht o = .ok (fs, calls) ∧
      calls.length = (l :: ls).length ∧
      ∀ i (hi : i < (l :: ls).length) (hc : i < calls.length),
        calls.get ⟨i, hc⟩ =
          { x := (w - metrics ((l :: ls).get ⟨i, hi⟩) font_name fs) / 2,
            y := (ht - (totalHeight (l :: ls) fs : ℚ)) / 2 +
              (((l :: ls).length - i - 1 : ℕ) : ℚ) * ((fs : ℚ) + 2),
            text := (l :: ls).get ⟨i, hi⟩ } := by
  refine ⟨_, _, draw_label_eq metrics text font_name w ht o l ls hsplit,
    layoutCalls_length _ _ _ _ _ _, ?_⟩
  intro i hi hc
  exact layoutCalls_get metrics font_name (l :: ls) w ht _ i hi hc

/-- Witness for C4: the layout description applies to `"FOO BAR"` with
monospace-like metrics on a 200×100 canvas. -/
theorem draw_label_layout_formulas_witness :
    pySplit "FOO BAR" = ["FOO", "BAR"] ∧
    (∃ fs calls,
      draw_label lenMetrics "FOO BAR" "Helvetica" 200 100 0 = .ok (fs, calls) ∧
      calls.length = (["FOO", "BAR"] : List String).length ∧
      ∀ i (hi : i < (["FOO", "BAR"] : List String).length)
        (hc : i < calls.length),
        calls.get ⟨i, hc⟩ =
          { x := (200 - lenMetrics ((["FOO", "BAR"] : List String).get ⟨i, hi⟩)
              "Helvetica" fs) / 2,
            y := (100 - (totalHeight ["FOO", "BAR"] fs : ℚ)) / 2 +
              (((["FOO", "BAR"] : List String).length - i - 1 : ℕ) : ℚ) *
                ((fs : ℚ) + 2),
            text := (["FOO", "BAR"] : List String).get ⟨i, hi⟩ }) :=
  ⟨by decide,
    draw_label_layout_formulas lenMetrics "FOO BAR" "Helvetica" 200 100 0
      "FOO" ["BAR"] (by decide)⟩

/-! ## Claim C6 -/

/-- C6: on a request whose line set is empty after splitting (text `""`),
`draw_label` does NOT skip: it propagates the solver's failure — in the
source, Python's `max()` over the empty generator raises `ValueError`,
crashing the call instead of skipping the request.  This contradicts the
spec's requirement to treat such a request like a blank value. -/
theorem draw_label_errors_on_empty_lineset (metrics : String → String → ℕ → ℚ)
    (font_name : String) (w ht : ℚ) (o : ℤ) :
    draw_label metrics "" font_name w ht o =
      .error "max() arg is an empty sequence" := rfl

/-! ## Batch driver lemmas -/

/-- The word scanner emits at least one word once a word is in progress. -/
theorem pyWordsGo_ne_nil_of_cur :
    ∀ (cs cur : List Char), cur ≠ [] → pyWordsGo cur cs ≠ [] := by
  intro cs
  induction cs with
  | nil =>
    intro cur hcur
    cases cur with
    | nil => exact absurd rfl hcur
    | cons c cs' => simp [pyWordsGo]
  | cons c cs ih =>
    intro cur hcur
    cases cur with
    | nil => exact absurd rfl hcur
    | cons d ds =>
      by_cases hw : c.isWhitespace
      · simp [pyWordsGo, hw]
      · simpa [pyWordsGo, hw] using ih (c :: d :: ds) (by simp)

/-- The word scanner emits at least one word whenever a non-whitespace
character remains in the input. -/
theorem pyWordsGo_ne_nil_of_mem :
    ∀ (cs cur : List Char), (∃ c ∈ cs, ¬ c.isWhitespace = true) →
      pyWordsGo cur cs ≠ [] := by
  intro cs
  induction cs with
  | nil => intro cur h; obtain ⟨c, hmem, -⟩ := h; simp at hmem
  | cons c cs ih =>
    intro cur h
    by_cases hw : c.isWhitespace
    · have hcs : ∃ d ∈ cs, ¬ d.isWhitespace = true := by
        obtain ⟨d, hmem, hd⟩ := h
        rcases List.mem_cons.mp hmem with heq | hin
        · exact absurd hw (heq ▸ hd)
        · exact ⟨d, hin, hd⟩
      by_cases hcur : cur.isEmpty
      · simpa [pyWordsGo, hw, hcur] using ih [] hcs
      · simp [pyWordsGo, hw, hcur]
    · have heq : pyWordsGo cur (c :: cs) = pyWordsGo (c :: cur) cs := by
        simp [pyWordsGo, hw]
      rw [heq]
      exact pyWordsGo_ne_nil_of_cur cs (c :: cur) (by simp)

/-- The first character surviving `dropWhile p` fails `p`. -/
theorem dropWhile_head_false {p : Char → Bool} :
    ∀ (l : List Char) {c : Char} {cs : List Char},
      l.dropWhile p = c :: cs → p c = false := by
  intro l
  induction l with
  | nil => intro c cs h; simp [List.dropWhile] at h
  | cons x xs ih =>
    intro c cs h
    rw [List.dropWhile_cons] at h
    by_cases hp : p x
    · rw [if_pos hp] at h
      exact ih h
    · rw [if_neg hp] at h
      cases h
      simpa using hp

/-- A non-empty stripped string contains a non-whitespace character. -/
theorem pyStrip_has_nonws (v : String) (h : pyStrip v ≠ "") :
    ∃ c ∈ (pyStrip v).data, ¬ c.isWhitespace = true := by
  set r := (v.data.dropWhile Char.isWhitespace).reverse.dropWhile
    Char.isWhitespace with hr
  have hdata : (pyStrip v).data = r.reverse := rfl
  have hne : r ≠ [] := by
    intro h0
    apply h
    show String.mk r.reverse = ""
    rw [h0]
    rfl
  obtain ⟨c, cs, hc⟩ := List.exists_cons_of_ne_nil hne
  have hcw : Char.isWhitespace c = false := dropWhile_head_false _ hc
  refine ⟨c, ?_, by simp [hcw]⟩
  rw [hdata, hc]
  simp

/-- Splitting a non-empty stripped string yields a non-empty word list. -/
theorem pySplit_pyStrip_ne_nil (v : String) (h : pyStrip v ≠ "") :
    pySplit (pyStrip v) ≠ [] :=
  pyWordsGo_ne_nil_of_mem (pyStrip v).data [] (pyStrip_has_nonws v h)

/-! ## Claim C5 -/

/-- C5: the batch driver emits exactly one page per entry whose stripped
form is non-blank and not the missing-value token `"nan"`, in original input
order: the pages' source texts are exactly the filtered stripped inputs (so
their count is the count of kept entries). -/
theorem create_pdf_one_page_per_kept_value (metrics : String → String → ℕ → ℚ)
    (data_list : List String) (font_name : String) (w ht : ℚ) (o : ℤ) :
    ∃ pages, create_pdf metrics data_list font_name w ht o = .ok pages ∧
      pages.map Page.text =
        (data_list.map pyStrip).filter
          (fun t => decide (¬(t = "" ∨ pyLower t = "nan"))) ∧
      pages.length =
        ((data_list.map pyStrip).filter
          (fun t => decide (¬(t = "" ∨ pyLower t = "nan")))).length := by
  have main : ∃ pages, create_pdf metrics data_list font_name w ht o = .ok pages ∧
      pages.map Page.text =
        (data_list.map pyStrip).filter
          (fun t => decide (¬(t = "" ∨ pyLower t = "nan"))) := by
    induction data_list with
    | nil => exact ⟨[], rfl, rfl⟩
    | cons v rest ih =>
      obtain ⟨pages, hp, hmap⟩ := ih
      by_cases hc : pyStrip v = "" ∨ pyLower (pyStrip v) = "nan"
      · refine ⟨pages, ?_, ?_⟩
        · simp only [create_pdf]
          rw [if_pos hc]
          exact hp
        · simp only [List.map_cons, List.filter_cons]
          rw [if_neg (by simp only [decide_eq_true_eq, not_not]; exact hc)]
          exact hmap
      · push_neg at hc
        obtain ⟨hne, hnan⟩ := hc
        obtain ⟨l, ls, hsplit⟩ :=
          List.exists_cons_of_ne_nil (pySplit_pyStrip_ne_nil v hne)
        have hdl := draw_label_eq metrics (pyStrip v) font_name w ht o l ls hsplit
        refine ⟨⟨pyStrip v,
          finalSize (fitLoop metrics font_name l ls w ht 1) o,
          layoutCalls metrics font_name (l :: ls) w ht
            (finalSize (fitLoop metrics font_name l ls w ht 1) o)⟩ :: pages,
          ?_, ?_⟩
        · simp only [create_pdf]
          rw [if_neg (by push_neg; exact ⟨hne, hnan⟩), hdl, hp]
        · simp only [List.map_cons, List.filter_cons]
          rw [if_pos (by simp only [decide_eq_true_eq]; push_neg; exact ⟨hne, hnan⟩)]
          rw [hmap]
  obtain ⟨pages, hp, hmap⟩ := main
  exact ⟨pages, hp, hmap, by rw [← hmap, List.length_map]⟩

/-! ## Claim C10 -/

/-- C10: any input value whose stripped form compares case-insensitively
equal to `"nan"` is skipped by the batch driver exactly as if it were
blank — no page is emitted for it, so a genuine `"NaN"` label can never
appear in the output. -/
theorem create_pdf_skips_nan_token (metrics : String → String → ℕ → ℚ)
    (v : String) (rest : List String) (font_name : String) (w ht : ℚ)
    (o : ℤ) (h : pyLower (pyStrip v) = "nan") :
    create_pdf metrics (v :: rest) font_name w ht o =
      create_pdf metrics rest font_name w ht o := by
  simp only [create_pdf]
  rw [if_pos (Or.inr h)]

/-- Witness for C10: the genuine cell text `"NaN"` is dropped — the batch
for `["NaN"]` produces the same (empty) document as the empty batch. -/
theorem create_pdf_skips_nan_token_witness :
    pyLower (pyStrip "NaN") = "nan" ∧
    create_pdf zeroMetrics ["NaN"] "Helvetica" 50 30 0 =
      create_pdf zeroMetrics [] "Helvetica" 50 30 0 :=
  ⟨by decide,
    create_pdf_skips_nan_token zeroMetrics "NaN" [] "Helvetica" 50 30 0
      (by decide)⟩

end B2CLabelGen
